import Mathlib

/-!
Verification of the UNS (Unified Namespace) repository's core algorithms,
shallowly embedded in Lean 4.

Embedded components:
* `GraphDBHandler` (03_uns_graphdb/src/uns_graphdb/graphdb_handler.py):
  the plain/composite attribute split, topic-depth node typing, and the
  node persistence walk (`save_node`, `save_all_nodes`,
  `save_attribute_nodes`, `persist_mqtt_msg`).
* `UNSSparkPlugBMapper.on_message`
  (05_sparkplugb/src/uns_spb_mapper/uns_sparkplugb_listner.py):
  SparkplugB topic routing and the per-message exception handling.
* `Spb_Message_Generator` sequence counters and the signed-integer wire
  transform of `uns_spb_helper` (02_mqtt-cluster): the module itself is
  not in the repository snapshot (only its tests are), so those are
  modelled from the specification, as marked in their doc comments.

Python `dict`s are modelled as insertion-ordered association lists with
an overwriting insert, matching CPython's ordered-dict semantics.
Message payloads come from `json.loads`, whose dicts always have string
keys (`JDict`); the attribute split, however, derives composite-dict
keys from a list element's `"name"` value, which may be any hashable
Python value, so composite dicts are keyed by `JKey` with CPython's
cross-type key equality (`True == 1`) modelled by `pyEq`.  Python
exceptions are modelled as `Except String`.
-/

namespace UNS

/-- JSON-like runtime values carried in MQTT message payloads: the
possible values of a Python `dict` produced by `json.loads`.  `arr`
covers both Python `list` and `tuple` (the source always tests
`isinstance(x, (list, tuple))` for the two together). -/
inductive JValue where
  | str (s : String)
  | int (n : Int)
  | bool (b : Bool)
  | null
  | arr (items : List JValue)
  | obj (fields : List (String × JValue))

/-- Attribute dictionary: a Python `dict` as an insertion-ordered
association list with string keys. -/
abbrev JDict := List (String × JValue)

/-- Lookup of a key in a dictionary (Python `d[k]` / `d.get(k)`). -/
def dlookup : JDict → String → Option JValue
  | [], _ => none
  | (k, v) :: rest, key => if k = key then some v else dlookup rest key

/-- Overwriting insert (Python `d[k] = v`): an existing key keeps its
position and gets the new value, a new key is appended at the end. -/
def dinsert : JDict → String → JValue → JDict
  | [], key, v => [(key, v)]
  | (k, w) :: rest, key, v =>
      if k = key then (key, v) :: rest else (k, w) :: dinsert rest key v

/-- Merge of one dictionary into another (Python `d.update(other)`),
inserting `other`'s entries in order. -/
def dupdate (d : JDict) (other : JDict) : JDict :=
  other.foldl (fun acc kv => dinsert acc kv.1 kv.2) d

/-- Scalar test: true exactly when the value is not a `dict`, `list` or
`tuple`, i.e. the negation of the source's
`isinstance(item, (dict, list, tuple))`. -/
def isScalar : JValue → Bool
  | .arr _ => false
  | .obj _ => false
  | _ => true

/-! Composite-dict keys.  The attribute split keys a list element by the
element's `"name"` value (graphdb_handler.py line 418), which may be any
hashable Python value, so composite dicts are keyed by `JKey` rather
than by strings.  CPython compares dict keys by `==`, under which
`True == 1` and `False == 0`; `pyEq` models that key equality. -/

/-- Hashable Python values that can occur as a dict key here: strings
(the original attribute keys and the positional `<attr>_<i>` keys) and
the scalar `"name"` values (str, int, bool, None).  A dict or list
`"name"` value is unhashable and raises before becoming a key. -/
inductive JKey where
  | str (s : String)
  | int (n : Int)
  | bool (b : Bool)
  | null
deriving DecidableEq

/-- Canonical form of a key under CPython `==`: a bool equals exactly its
numeric value (`True == 1`, `False == 0`), every other scalar only
itself. -/
def pyCanon : JKey → JKey
  | .bool b => .int (if b then 1 else 0)
  | k => k

/-- CPython dict-key equality: structural on each scalar type, except
that a bool key equals the int key of its numeric value (`True == 1`,
`False == 0`) — two keys are equal exactly when their canonical forms
coincide. -/
def pyEq (a b : JKey) : Bool := pyCanon a == pyCanon b

/-- Composite-attribute dictionary: a Python `dict` whose keys may be any
hashable scalar, as an insertion-ordered association list. -/
abbrev KDict := List (JKey × JValue)

/-- Lookup in a `JKey`-keyed dictionary, probing with CPython key
equality. -/
def klookup : KDict → JKey → Option JValue
  | [], _ => none
  | (k0, v) :: rest, key => if pyEq k0 key then some v else klookup rest key

/-- Overwriting insert into a `JKey`-keyed dictionary (Python
`d[k] = v`): a matching key keeps its position AND its original key
object (CPython retains the first-inserted key on overwrite) and gets
the new value; an unmatched key is appended. -/
def kinsert : KDict → JKey → JValue → KDict
  | [], key, v => [(key, v)]
  | (k0, w) :: rest, key, v =>
      if pyEq k0 key then (k0, v) :: rest else (k0, w) :: kinsert rest key v

/-- Merge of one `JKey`-keyed dictionary into another (Python
`d.update(other)`). -/
def kupdate (d : KDict) (other : KDict) : KDict :=
  other.foldl (fun acc kv => kinsert acc kv.1 kv.2) d

/-- Key chosen for element number `counter` of a list value stored under
`key`, from `GraphDBHandler.separate_plain_composite_attributes`
(graphdb_handler.py lines 413-420): the tentative key is the string
`key + "_" + str(counter)`; if the element is a dict containing a
`"name"` entry, `name_key = item["name"]` makes that value — of
whatever type — the key.  The subsequent `temp_dict[name_key] = item`
then raises `TypeError: unhashable type` when the name value is a dict
or a list, modelled as the error here (nothing else happens between the
two statements).  `.arr` values come from JSON arrays, i.e. Python
lists, which are unhashable (`json.loads` never produces tuples). -/
def elemKey (key : String) (counter : Nat) : JValue → Except String JKey
  | .obj fields =>
      match dlookup fields "name" with
      | some (.str s) => .ok (.str s)
      | some (.int n) => .ok (.int n)
      | some (.bool b) => .ok (.bool b)
      | some .null => .ok .null
      | some (.obj _) => .error "TypeError: unhashable type: dict"
      | some (.arr _) => .error "TypeError: unhashable type: list"
      | none => .ok (.str (key ++ "_" ++ toString counter))
  | _ => .ok (.str (key ++ "_" ++ toString counter))

/-- Loop body of the list/tuple case of
`separate_plain_composite_attributes` (source lines 410-421): builds
`temp_dict` keyed by `elemKey` and the `is_only_simple_arr` flag,
propagating the TypeError of an unhashable derived key. -/
def listSplitGo (key : String) :
    List JValue → Nat → KDict → Bool → Except String (KDict × Bool)
  | [], _, temp, simpleFlag => .ok (temp, simpleFlag)
  | item :: rest, counter, temp, simpleFlag =>
      match elemKey key counter item with
      | .error e => .error e
      | .ok nk =>
          listSplitGo key rest (counter + 1) (kinsert temp nk item)
            (simpleFlag && isScalar item)

/-- The `temp_dict` and `is_only_simple_arr` computed for a list value
under `key` (source lines 410-421), starting from counter 0, an empty
`temp_dict` and flag `True`. -/
def listSplit (key : String) (items : List JValue) : Except String (KDict × Bool) :=
  listSplitGo key items 0 [] true

/-- Main loop of `separate_plain_composite_attributes` (source lines
402-430) over the remaining entries, threading the `simple_attr` and
`complex_attr` accumulators: a dict value goes to `complex_attr` under
its (string) key; a list/tuple of only scalars goes to `simple_attr`
under its key; a list/tuple with any non-scalar element has its
`temp_dict` merged into `complex_attr` via `update`; every other value
goes to `simple_attr` under its key.  An unhashable derived key raises
out of the whole split. -/
def sepGo : JDict → JDict → KDict → Except String (JDict × KDict)
  | [], simple, complex => .ok (simple, complex)
  | (key, v) :: rest, simple, complex =>
      match v with
      | .obj fields => sepGo rest simple (kinsert complex (.str key) (.obj fields))
      | .arr items =>
          match listSplit key items with
          | .error e => .error e
          | .ok (temp, onlySimple) =>
              if onlySimple then sepGo rest (dinsert simple key (.arr items)) complex
              else sepGo rest simple (kupdate complex temp)
      | w => sepGo rest (dinsert simple key w) complex

/-- Embedding of `GraphDBHandler.separate_plain_composite_attributes`
(graphdb_handler.py lines 377-432): splits an attribute dict into plain
attributes and composite attributes, raising (TypeError) when a list
element's `"name"` value is unhashable.  `none` models the Python
`None` argument, replaced by the empty dict (source lines 399-401). -/
def separate_plain_composite_attributes (attributes : Option JDict) :
    Except String (JDict × KDict) :=
  sepGo (attributes.getD []) [] []

/-- Every key the split inserts into the composite dict, in insertion
order: the entry key for a dict value, the `temp_dict` keys for a
list/tuple with a non-scalar element (lists whose split raises
contribute nothing — the split as a whole raises then).  Plain entries
insert nothing into the composite dict. -/
def compositeKeys : JDict → List JKey
  | [] => []
  | (key, v) :: rest =>
      match v with
      | .obj _ => JKey.str key :: compositeKeys rest
      | .arr items =>
          match listSplit key items with
          | .ok (temp, false) => temp.map Prod.fst ++ compositeKeys rest
          | _ => compositeKeys rest
      | _ => compositeKeys rest

/-- Entries of a list value in order, each keyed by `elemKey` with the
counter starting at `counter`: the contents of `temp_dict` when no two
derived keys collide, or the error of the first unhashable derived
key. -/
def listKeyed (key : String) (counter : Nat) : List JValue → Except String KDict
  | [] => .ok []
  | item :: rest =>
      match elemKey key counter item with
      | .error e => .error e
      | .ok nk =>
          match listKeyed key (counter + 1) rest with
          | .error e => .error e
          | .ok tl => .ok ((nk, item) :: tl)

/-- Embedding of `GraphDBHandler.get_topic_node_type` (graphdb_handler.py
lines 264-272): the label of the node at `current_depth` in the topic
tree.  When the depth is past the end of `node_types` the Python code
reads `node_types[-1]`, which raises `IndexError` on an empty tuple;
the failed index access is modelled as `none`. -/
def get_topic_node_type (current_depth : Nat) (node_types : List String) : Option String :=
  if current_depth < node_types.length then node_types[current_depth]?
  else
    match node_types.getLast? with
    | some last => some (last ++ "_depth_" ++ toString (current_depth - node_types.length + 1))
    | none => none

/-! Dictionary lemmas. -/

theorem dlookup_dinsert_self (d : JDict) (k : String) (v : JValue) :
    dlookup (dinsert d k v) k = some v := by
  induction d with
  | nil => simp [dinsert, dlookup]
  | cons hd tl ih =>
      obtain ⟨k0, w0⟩ := hd
      by_cases h : k0 = k
      · simp [dinsert, dlookup, h]
      · simp [dinsert, dlookup, h, ih]

theorem dlookup_dinsert_ne (d : JDict) (k key : String) (v : JValue) (h : k ≠ key) :
    dlookup (dinsert d key v) k = dlookup d k := by
  have hky : ¬key = k := fun hk => h hk.symm
  induction d with
  | nil => simp [dinsert, dlookup, hky]
  | cons hd tl ih =>
      obtain ⟨k0, w0⟩ := hd
      by_cases h0 : k0 = key
      · subst h0
        simp [dinsert, dlookup, hky]
      · simp [dinsert, dlookup, h0, ih]

theorem pyEq_refl (a : JKey) : pyEq a a = true := by
  simp [pyEq]

theorem pyEq_comm (a b : JKey) : pyEq a b = pyEq b a := by
  simp [pyEq, beq_iff_eq, eq_comm]

theorem pyEq_trans {a b c : JKey} (h1 : pyEq a b = true) (h2 : pyEq b c = true) :
    pyEq a c = true := by
  simp only [pyEq, beq_iff_eq] at h1 h2 ⊢
  exact h1.trans h2

theorem klookup_kinsert_self (d : KDict) (k : JKey) (v : JValue) :
    klookup (kinsert d k v) k = some v := by
  induction d with
  | nil => simp [kinsert, klookup, pyEq_refl]
  | cons hd tl ih =>
      obtain ⟨k0, w0⟩ := hd
      by_cases h : pyEq k0 k
      · simp [kinsert, klookup, h]
      · simp [kinsert, klookup, h, ih]

theorem klookup_kinsert_ne (d : KDict) (k key : JKey) (v : JValue)
    (h : pyEq key k = false) : klookup (kinsert d key v) k = klookup d k := by
  induction d with
  | nil => simp [kinsert, klookup, h]
  | cons hd tl ih =>
      obtain ⟨k0, w0⟩ := hd
      by_cases h0 : pyEq k0 key = true
      · have hk0 : pyEq k0 k = false := by
          cases hc : pyEq k0 k
          · rfl
          · have h1 : pyEq key k0 = true := by rw [pyEq_comm]; exact h0
            rw [pyEq_trans h1 hc] at h
            cases h
        simp [kinsert, klookup, h0, hk0]
      · have h0f : pyEq k0 key = false := by
          cases hc : pyEq k0 key
          · rfl
          · exact absurd hc h0
        simp [kinsert, klookup, h0f, ih]

theorem kinsert_absent_eq_append (d : KDict) (k : JKey) (v : JValue)
    (h : ∀ a ∈ d.map Prod.fst, pyEq a k = false) :
    kinsert d k v = d ++ [(k, v)] := by
  induction d with
  | nil => simp [kinsert]
  | cons hd tl ih =>
      obtain ⟨k0, w0⟩ := hd
      have h0 : pyEq k0 k = false := h k0 (by simp)
      simp only [kinsert, h0, Bool.false_eq_true, if_false, List.cons_append,
        List.cons.injEq, true_and]
      exact ih fun a ha => h a (by simp [ha])

theorem klookup_kupdate_absent (d other : KDict) (k : JKey)
    (h : ∀ a ∈ other.map Prod.fst, pyEq a k = false) :
    klookup (kupdate d other) k = klookup d k := by
  induction other generalizing d with
  | nil => simp [kupdate]
  | cons hd tl ih =>
      obtain ⟨k0, w0⟩ := hd
      show klookup (kupdate (kinsert d k0 w0) tl) k = klookup d k
      rw [ih _ fun a ha => h a (by simp [ha]),
        klookup_kinsert_ne _ _ _ _ (h k0 (by simp))]

theorem klookup_kupdate_mem (d other : KDict) (k : JKey) (v : JValue)
    (hnd : (other.map Prod.fst).Pairwise (fun a b => pyEq a b = false))
    (hmem : (k, v) ∈ other) : klookup (kupdate d other) k = some v := by
  induction other generalizing d with
  | nil => cases hmem
  | cons hd tl ih =>
      obtain ⟨k0, w0⟩ := hd
      simp only [List.map_cons, List.pairwise_cons] at hnd
      rcases List.mem_cons.mp hmem with heq | htl
      · obtain ⟨rfl, rfl⟩ := Prod.mk.injEq .. ▸ heq
        show klookup (kupdate (kinsert d k v) tl) k = some v
        rw [klookup_kupdate_absent _ _ _ ?_, klookup_kinsert_self]
        intro a ha
        rw [pyEq_comm]
        exact hnd.1 a ha
      · exact ih _ hnd.2 htl

/-! Lemmas about the list-value loop of the split. -/

theorem listSplitGo_flag (key : String) (items : List JValue) (counter : Nat)
    (temp : KDict) (flag : Bool) (r : KDict × Bool)
    (h : listSplitGo key items counter temp flag = .ok r) :
    r.2 = (flag && items.all isScalar) := by
  induction items generalizing counter temp flag with
  | nil =>
      simp only [listSplitGo, Except.ok.injEq] at h
      subst h
      simp
  | cons item rest ih =>
      simp only [listSplitGo] at h
      cases helem : elemKey key counter item with
      | error e => rw [helem] at h; simp at h
      | ok nk =>
          rw [helem] at h
          rw [ih _ _ _ h]
          simp [List.all_cons, Bool.and_assoc]

theorem listSplit_flag (key : String) (items : List JValue) (r : KDict × Bool)
    (h : listSplit key items = .ok r) : r.2 = items.all isScalar := by
  simpa using listSplitGo_flag key items 0 [] true r h

theorem listSplitGo_keyed (key : String) (items : List JValue) (counter : Nat)
    (temp : KDict) (flag : Bool) (kd : KDict)
    (hkd : listKeyed key counter items = .ok kd)
    (hnd : (kd.map Prod.fst).Pairwise (fun a b => pyEq a b = false))
    (hdisj : ∀ a ∈ kd.map Prod.fst, ∀ b ∈ temp.map Prod.fst, pyEq b a = false) :
    listSplitGo key items counter temp flag
      = .ok (temp ++ kd, flag && items.all isScalar) := by
  induction items generalizing counter temp flag kd with
  | nil =>
      simp only [listKeyed, Except.ok.injEq] at hkd
      subst hkd
      simp [listSplitGo]
  | cons item rest ih =>
      simp only [listKeyed] at hkd
      cases helem : elemKey key counter item with
      | error e => rw [helem] at hkd; simp at hkd
      | ok nk =>
          rw [helem] at hkd
          cases htl : listKeyed key (counter + 1) rest with
          | error e => rw [htl] at hkd; simp at hkd
          | ok tl =>
              rw [htl] at hkd
              simp only [Except.ok.injEq] at hkd
              subst hkd
              simp only [List.map_cons, List.pairwise_cons] at hnd
              have hstep : kinsert temp nk item = temp ++ [(nk, item)] :=
                kinsert_absent_eq_append _ _ _ (fun b hb => hdisj nk (by simp) b hb)
              have hrec := ih (counter + 1) (temp ++ [(nk, item)])
                (flag && isScalar item) tl htl hnd.2 ?_
              · simp only [listSplitGo, helem, hstep, hrec]
                simp [List.append_assoc, List.all_cons, Bool.and_assoc]
              · intro a ha b hb
                simp only [List.map_append, List.mem_append, List.map_cons,
                  List.map_nil, List.mem_singleton] at hb
                rcases hb with hb | hb
                · exact hdisj a (by simp [ha]) b hb
                · subst hb
                  exact hnd.1 a ha

theorem listSplit_keyed (key : String) (items : List JValue) (kd : KDict)
    (hkd : listKeyed key 0 items = .ok kd)
    (hnd : (kd.map Prod.fst).Pairwise (fun a b => pyEq a b = false)) :
    listSplit key items = .ok (kd, items.all isScalar) := by
  simpa [listSplit] using listSplitGo_keyed key items 0 [] true kd hkd hnd (by simp)

/-- Inversion of the split's list/tuple case: a successful run through an
entry holding a list either classified it all-scalar and stored it in the
plain dict, or merged its temp dict into the composite dict. -/
theorem sepGo_arr_inv (key : String) (items : List JValue) (rest : JDict)
    (simple : JDict) (complex : KDict) (pc : JDict × KDict)
    (hsplit : sepGo ((key, .arr items) :: rest) simple complex = .ok pc) :
    ∃ temp, (listSplit key items = .ok (temp, true) ∧
        sepGo rest (dinsert simple key (.arr items)) complex = .ok pc) ∨
      (listSplit key items = .ok (temp, false) ∧
        sepGo rest simple (kupdate complex temp) = .ok pc) := by
  simp only [sepGo] at hsplit
  cases hls : listSplit key items with
  | error e => rw [hls] at hsplit; simp at hsplit
  | ok tp =>
      obtain ⟨temp, fl⟩ := tp
      rw [hls] at hsplit
      cases fl
      · exact ⟨temp, Or.inr ⟨rfl, by simpa using hsplit⟩⟩
      · exact ⟨temp, Or.inl ⟨rfl, by simpa using hsplit⟩⟩

/-! Frame lemmas for the split's main loop: entries whose keys a suffix of
the input cannot touch are unchanged in the corresponding accumulator. -/

theorem sepGo_fst_frame (attrs : JDict) (simple : JDict) (complex : KDict)
    (k : String) (pc : JDict × KDict) (h : k ∉ attrs.map Prod.fst)
    (hsplit : sepGo attrs simple complex = .ok pc) :
    dlookup pc.1 k = dlookup simple k := by
  induction attrs generalizing simple complex with
  | nil =>
      simp only [sepGo, Except.ok.injEq] at hsplit
      subst hsplit
      rfl
  | cons hd rest ih =>
      obtain ⟨key, v⟩ := hd
      simp only [List.map_cons, List.mem_cons] at h
      push_neg at h
      have hkk : k ≠ key := h.1
      cases v
      case arr items =>
        obtain ⟨temp, ⟨hls, hrec⟩ | ⟨hls, hrec⟩⟩ :=
          sepGo_arr_inv key items rest simple complex pc hsplit
        · rw [ih _ _ h.2 hrec, dlookup_dinsert_ne _ _ _ _ hkk]
        · exact ih _ _ h.2 hrec
      case obj fields =>
        simp only [sepGo] at hsplit
        exact ih _ _ h.2 hsplit
      all_goals
        simp only [sepGo] at hsplit
        rw [ih _ _ h.2 hsplit, dlookup_dinsert_ne _ _ _ _ hkk]

theorem sepGo_snd_frame (attrs : JDict) (simple : JDict) (complex : KDict)
    (k : JKey) (pc : JDict × KDict)
    (h : ∀ a ∈ compositeKeys attrs, pyEq a k = false)
    (hsplit : sepGo attrs simple complex = .ok pc) :
    klookup pc.2 k = klookup complex k := by
  induction attrs generalizing simple complex with
  | nil =>
      simp only [sepGo, Except.ok.injEq] at hsplit
      subst hsplit
      rfl
  | cons hd rest ih =>
      obtain ⟨key, v⟩ := hd
      cases v
      case arr items =>
        obtain ⟨temp, ⟨hls, hrec⟩ | ⟨hls, hrec⟩⟩ :=
          sepGo_arr_inv key items rest simple complex pc hsplit
        · refine ih _ _ ?_ hrec
          intro a ha
          refine h a ?_
          simp only [compositeKeys, hls]
          exact ha
        · have hk : ∀ a ∈ compositeKeys ((key, JValue.arr items) :: rest), pyEq a k = false := h
          simp only [compositeKeys, hls] at hk
          rw [ih _ _ ?_ hrec, klookup_kupdate_absent _ _ _ ?_]
          · intro a ha
            exact hk a (List.mem_append_left _ ha)
          · intro a ha
            exact hk a (List.mem_append_right _ ha)
      case obj fields =>
        simp only [sepGo] at hsplit
        simp only [compositeKeys] at h
        rw [ih _ _ (fun a ha => h a (List.mem_cons_of_mem _ ha)) hsplit,
          klookup_kinsert_ne _ _ _ _ (h _ (List.mem_cons_self _ _))]
      all_goals
        simp only [sepGo] at hsplit
        simp only [compositeKeys] at h
        exact ih _ _ h hsplit

/-! Placement lemmas: where each kind of top-level entry ends up. -/

theorem sepGo_scalar_placement (attrs : JDict) (simple : JDict) (complex : KDict)
    (k : String) (v : JValue) (pc : JDict × KDict)
    (hkeys : (attrs.map Prod.fst).Nodup) (hmem : (k, v) ∈ attrs)
    (hv : isScalar v = true) (hsplit : sepGo attrs simple complex = .ok pc) :
    dlookup pc.1 k = some v := by
  induction attrs generalizing simple complex with
  | nil => cases hmem
  | cons hd rest ih =>
      obtain ⟨key, w⟩ := hd
      simp only [List.map_cons, List.nodup_cons] at hkeys
      rcases List.mem_cons.mp hmem with heq | htl
      · obtain ⟨rfl, rfl⟩ := Prod.mk.injEq .. ▸ heq
        cases v
        case arr items => simp [isScalar] at hv
        case obj fields => simp [isScalar] at hv
        all_goals
          simp only [sepGo] at hsplit
          rw [sepGo_fst_frame rest _ _ k pc hkeys.1 hsplit, dlookup_dinsert_self]
      · cases w
        case arr items2 =>
          obtain ⟨temp, ⟨hls, hrec⟩ | ⟨hls, hrec⟩⟩ :=
            sepGo_arr_inv key items2 rest simple complex pc hsplit
          · exact ih _ _ hkeys.2 htl hrec
          · exact ih _ _ hkeys.2 htl hrec
        case obj fields =>
          simp only [sepGo] at hsplit
          exact ih _ _ hkeys.2 htl hsplit
        all_goals
          simp only [sepGo] at hsplit
          exact ih _ _ hkeys.2 htl hsplit

theorem sepGo_simple_list_placement (attrs : JDict) (simple : JDict) (complex : KDict)
    (k : String) (items : List JValue) (pc : JDict × KDict)
    (hkeys : (attrs.map Prod.fst).Nodup) (hmem : (k, JValue.arr items) ∈ attrs)
    (hv : items.all isScalar = true) (hsplit : sepGo attrs simple complex = .ok pc) :
    dlookup pc.1 k = some (.arr items) := by
  induction attrs generalizing simple complex with
  | nil => cases hmem
  | cons hd rest ih =>
      obtain ⟨key, w⟩ := hd
      simp only [List.map_cons, List.nodup_cons] at hkeys
      rcases List.mem_cons.mp hmem with heq | htl
      · obtain ⟨rfl, rfl⟩ := Prod.mk.injEq .. ▸ heq
        obtain ⟨temp, ⟨hls, hrec⟩ | ⟨hls, hrec⟩⟩ :=
          sepGo_arr_inv k items rest simple complex pc hsplit
        · rw [sepGo_fst_frame rest _ _ k pc hkeys.1 hrec, dlookup_dinsert_self]
        · have := listSplit_flag k items (temp, false) hls
          rw [hv] at this
          simp at this
      · cases w
        case arr items2 =>
          obtain ⟨temp, ⟨hls, hrec⟩ | ⟨hls, hrec⟩⟩ :=
            sepGo_arr_inv key items2 rest simple complex pc hsplit
          · exact ih _ _ hkeys.2 htl hrec
          · exact ih _ _ hkeys.2 htl hrec
        case obj fields =>
          simp only [sepGo] at hsplit
          exact ih _ _ hkeys.2 htl hsplit
        all_goals
          simp only [sepGo] at hsplit
          exact ih _ _ hkeys.2 htl hsplit

theorem sepGo_obj_placement (attrs : JDict) (simple : JDict) (complex : KDict)
    (k : String) (fields : JDict) (pc : JDict × KDict)
    (hcomp : (compositeKeys attrs).Pairwise (fun a b => pyEq a b = false))
    (hmem : (k, JValue.obj fields) ∈ attrs)
    (hsplit : sepGo attrs simple complex = .ok pc) :
    klookup pc.2 (.str k) = some (.obj fields) := by
  induction attrs generalizing simple complex with
  | nil => cases hmem
  | cons hd rest ih =>
      obtain ⟨key, w⟩ := hd
      rcases List.mem_cons.mp hmem with heq | htl
      · obtain ⟨rfl, rfl⟩ := Prod.mk.injEq .. ▸ heq
        simp only [compositeKeys, List.pairwise_cons] at hcomp
        simp only [sepGo] at hsplit
        rw [sepGo_snd_frame rest _ _ (.str k) pc ?_ hsplit, klookup_kinsert_self]
        intro a ha
        rw [pyEq_comm]
        exact hcomp.1 a ha
      · cases w
        case arr items2 =>
          obtain ⟨temp, ⟨hls, hrec⟩ | ⟨hls, hrec⟩⟩ :=
            sepGo_arr_inv key items2 rest simple complex pc hsplit
          · refine ih _ _ ?_ htl hrec
            simpa only [compositeKeys, hls] using hcomp
          · have hc : (List.map Prod.fst temp ++ compositeKeys rest).Pairwise
                (fun a b => pyEq a b = false) := by
              simpa only [compositeKeys, hls] using hcomp
            exact ih _ _ (List.pairwise_append.mp hc).2.1 htl hrec
        case obj fields2 =>
          simp only [compositeKeys, List.pairwise_cons] at hcomp
          simp only [sepGo] at hsplit
          exact ih _ _ hcomp.2 htl hsplit
        all_goals
          simp only [compositeKeys] at hcomp
          simp only [sepGo] at hsplit
          exact ih _ _ hcomp htl hsplit

theorem sepGo_mixed_list_placement (attrs : JDict) (simple : JDict) (complex : KDict)
    (k : String) (items : List JValue) (tp : KDict × Bool) (pc : JDict × KDict)
    (hcomp : (compositeKeys attrs).Pairwise (fun a b => pyEq a b = false))
    (hmem : (k, JValue.arr items) ∈ attrs) (hv : items.all isScalar = false)
    (hls0 : listSplit k items = .ok tp) (p : JKey × JValue) (hp : p ∈ tp.1)
    (hsplit : sepGo attrs simple complex = .ok pc) :
    klookup pc.2 p.1 = some p.2 := by
  induction attrs generalizing simple complex with
  | nil => cases hmem
  | cons hd rest ih =>
      obtain ⟨key, w⟩ := hd
      rcases List.mem_cons.mp hmem with heq | htl
      · obtain ⟨rfl, rfl⟩ := Prod.mk.injEq .. ▸ heq
        obtain ⟨temp, ⟨hls, hrec⟩ | ⟨hls, hrec⟩⟩ :=
          sepGo_arr_inv k items rest simple complex pc hsplit
        · rw [hls0] at hls
          simp only [Except.ok.injEq] at hls
          have htp2 : tp.2 = true := by rw [hls]
          rw [listSplit_flag k items tp hls0, hv] at htp2
          cases htp2
        · rw [hls0] at hls
          simp only [Except.ok.injEq] at hls
          rw [hls] at hls0 hp
          have hc : (List.map Prod.fst temp ++ compositeKeys rest).Pairwise
              (fun a b => pyEq a b = false) := by
            simpa only [compositeKeys, hls0] using hcomp
          obtain ⟨hc1, hc2, hc3⟩ := List.pairwise_append.mp hc
          rw [sepGo_snd_frame rest _ _ p.1 pc ?_ hrec]
          · exact klookup_kupdate_mem _ _ _ _ hc1 hp
          · intro a ha
            rw [pyEq_comm]
            exact hc3 p.1 (List.mem_map_of_mem Prod.fst hp) a ha
      · cases w
        case arr items2 =>
          obtain ⟨temp, ⟨hls, hrec⟩ | ⟨hls, hrec⟩⟩ :=
            sepGo_arr_inv key items2 rest simple complex pc hsplit
          · refine ih _ _ ?_ htl hrec
            simpa only [compositeKeys, hls] using hcomp
          · have hc : (List.map Prod.fst temp ++ compositeKeys rest).Pairwise
                (fun a b => pyEq a b = false) := by
              simpa only [compositeKeys, hls] using hcomp
            exact ih _ _ (List.pairwise_append.mp hc).2.1 htl hrec
        case obj fields2 =>
          simp only [compositeKeys, List.pairwise_cons] at hcomp
          simp only [sepGo] at hsplit
          exact ih _ _ hcomp.2 htl hsplit
        all_goals
          simp only [compositeKeys] at hcomp
          simp only [sepGo] at hsplit
          exact ih _ _ hcomp htl hsplit

/-! Claim theorems for the attribute split and the topic node typing. -/

/-- C1: whenever `separate_plain_composite_attributes` returns (it raises
only for an unhashable list-element name), every top-level entry of the
attribute map whose value is a scalar, or a list/tuple all of whose
elements are scalars, is in the returned plain dict under its original
key; an entry whose value is a nested map is in the returned composite
dict under its key, and an entry whose value is a list/tuple with a
non-scalar element has its (keyed) elements in the composite dict.  In
particular the message {"a":"v1","b":[10,23,23,34],"c":{"k1":"v1","k2":100}}
splits into plain {"a":"v1","b":[10,23,23,34]} and composite
{"c":{"k1":"v1","k2":100}}. -/
theorem plain_composite_split_spec :
    (∀ (attrs : JDict) (k : String) (v : JValue) (plainD : JDict) (compD : KDict),
        (attrs.map Prod.fst).Nodup →
        (compositeKeys attrs).Pairwise (fun a b => pyEq a b = false) →
        (k, v) ∈ attrs →
        separate_plain_composite_attributes (some attrs) = .ok (plainD, compD) →
          (isScalar v = true → dlookup plainD k = some v) ∧
          (∀ items, v = .arr items → items.all isScalar = true →
            dlookup plainD k = some v) ∧
          (∀ fields, v = .obj fields → klookup compD (.str k) = some v) ∧
          (∀ items tp, v = .arr items → items.all isScalar = false →
            listSplit k items = .ok tp →
            ∀ p ∈ tp.1, klookup compD p.1 = some p.2)) ∧
    separate_plain_composite_attributes (some
        [("a", .str "v1"), ("b", .arr [.int 10, .int 23, .int 23, .int 34]),
         ("c", .obj [("k1", .str "v1"), ("k2", .int 100)])]) =
      .ok ([("a", .str "v1"), ("b", .arr [.int 10, .int 23, .int 23, .int 34])],
           [(.str "c", .obj [("k1", .str "v1"), ("k2", .int 100)])]) := by
  refine ⟨?_, rfl⟩
  intro attrs k v plainD compD h1 h2 hmem hsplit
  refine ⟨?_, ?_, ?_, ?_⟩
  · intro hs
    exact sepGo_scalar_placement attrs [] [] k v (plainD, compD) h1 hmem hs hsplit
  · rintro items rfl hall
    exact sepGo_simple_list_placement attrs [] [] k items (plainD, compD) h1 hmem hall hsplit
  · rintro fields rfl
    exact sepGo_obj_placement attrs [] [] k fields (plainD, compD) h2 hmem hsplit
  · rintro items tp rfl hall hls p hp
    exact sepGo_mixed_list_placement attrs [] [] k items tp (plainD, compD) h2 hmem hall
      hls p hp hsplit

/-- C7: when the split processes a list/tuple with a non-scalar element,
element number i is keyed by the string "<attrName>_<i>" with i counting
from 0, except that a map element containing a "name" field is keyed by
that name value (`elemKey` — a string name keys by that string; any other
hashable name keys by its raw value; an unhashable dict/list name raises
TypeError): with no colliding derived keys the temp dict is exactly the
elements under their derived keys, and each such entry is found in the
returned composite dict.  In particular the list
[{"name":"v1","k2":100},{"name":"v2","k2":200}] under key "c" produces
composite entries keyed "v1" and "v2", not "c_0" and "c_1"; a name value
100 keys its entry by the int 100, and a dict name value makes the whole
split raise. -/
theorem mixed_list_keying_spec :
    (∀ (key : String) (items : List JValue) (kd : KDict),
        listKeyed key 0 items = .ok kd →
        (kd.map Prod.fst).Pairwise (fun a b => pyEq a b = false) →
        listSplit key items = .ok (kd, items.all isScalar)) ∧
    (∀ (attrs : JDict) (k : String) (items : List JValue) (tp : KDict × Bool)
        (plainD : JDict) (compD : KDict),
        (compositeKeys attrs).Pairwise (fun a b => pyEq a b = false) →
        (k, .arr items) ∈ attrs → items.all isScalar = false →
        listSplit k items = .ok tp →
        separate_plain_composite_attributes (some attrs) = .ok (plainD, compD) →
        ∀ p ∈ tp.1, klookup compD p.1 = some p.2) ∧
    separate_plain_composite_attributes (some
        [("a", .str "v1"), ("b", .arr [.int 10, .int 23]),
         ("c", .arr [.obj [("name", .str "v1"), ("k2", .int 100)],
                     .obj [("name", .str "v2"), ("k2", .int 200)]])]) =
      .ok ([("a", .str "v1"), ("b", .arr [.int 10, .int 23])],
           [(.str "v1", .obj [("name", .str "v1"), ("k2", .int 100)]),
            (.str "v2", .obj [("name", .str "v2"), ("k2", .int 200)])]) ∧
    klookup [(JKey.str "v1", .obj [("name", .str "v1"), ("k2", .int 100)]),
             (JKey.str "v2", .obj [("name", .str "v2"), ("k2", .int 200)])]
      (.str "c_0") = none ∧
    separate_plain_composite_attributes (some
        [("c", .arr [.obj [("name", .int 100), ("k2", .int 1)]])]) =
      .ok ([], [(.int 100, .obj [("name", .int 100), ("k2", .int 1)])]) ∧
    separate_plain_composite_attributes (some
        [("c", .arr [.obj [("name", .obj [("x", .int 1)])]])]) =
      .error "TypeError: unhashable type: dict" := by
  refine ⟨listSplit_keyed, ?_, rfl, rfl, rfl, rfl⟩
  intro attrs k items tp plainD compD h2 hmem hall hls hsplit p hp
  exact sepGo_mixed_list_placement attrs [] [] k items tp (plainD, compD) h2 hmem hall
    hls p hp hsplit

/-- C2: for every depth d and non-empty level-name list L,
`get_topic_node_type` returns L[d] when d < |L| and
"<last of L>_depth_<d - |L| + 1>" when d ≥ |L|; in particular at the default
five ISA-95 levels depth 5 gives "DEVICE_depth_1" and depth 9 gives
"DEVICE_depth_5". -/
theorem get_topic_node_type_spec (d : Nat) (L : List String) (h : L ≠ []) :
    (∀ hd : d < L.length, get_topic_node_type d L = some (L.get ⟨d, hd⟩)) ∧
    (L.length ≤ d →
      get_topic_node_type d L =
        some (L.getLast h ++ "_depth_" ++ toString (d - L.length + 1))) ∧
    get_topic_node_type 5 ["ENTERPRISE", "FACILITY", "AREA", "LINE", "DEVICE"]
      = some "DEVICE_depth_1" ∧
    get_topic_node_type 9 ["ENTERPRISE", "FACILITY", "AREA", "LINE", "DEVICE"]
      = some "DEVICE_depth_5" := by
  refine ⟨?_, ?_, rfl, rfl⟩
  · intro hd
    simp [get_topic_node_type, hd, List.getElem?_eq_getElem]
  · intro hle
    have hnlt : ¬d < L.length := not_lt.mpr hle
    simp [get_topic_node_type, hnlt, List.getLast?_eq_getLast _ h]

/-- Witness for C2 at the default node types and depth 5. -/
theorem get_topic_node_type_spec_witness :
    (["ENTERPRISE", "FACILITY", "AREA", "LINE", "DEVICE"] : List String) ≠ [] ∧
    get_topic_node_type 5 ["ENTERPRISE", "FACILITY", "AREA", "LINE", "DEVICE"]
      = some "DEVICE_depth_1" :=
  ⟨by decide,
    (get_topic_node_type_spec 5 ["ENTERPRISE", "FACILITY", "AREA", "LINE", "DEVICE"]
      (by decide)).2.2.1⟩

/-- C9 counterexample: at depth 0 with an empty level-name list,
`get_topic_node_type` produces no label — the Python code evaluates
`node_types[-1]` on an empty tuple and raises IndexError, so the claim that
the call still returns a result does not hold. -/
theorem get_topic_node_type_empty_cex :
    (get_topic_node_type 0 []).isSome = false := rfl

/-- C9 amended: for every depth, `get_topic_node_type` with an empty
level-name list raises IndexError (returns no label); the depth-suffix
fallback functions only for a non-empty level-name list. -/
theorem get_topic_node_type_empty_raises (d : Nat) :
    get_topic_node_type d [] = none := by
  simp [get_topic_node_type]

/-! Embedding of the node persistence walk of `GraphDBHandler`.  The Neo4j
graph is modelled as an explicit state; the CQL query of `save_node`
(graphdb_handler.py lines 320-365) is modelled by its documented merge
semantics: match the parent by element id, match an existing
`(parent)-[:PARENT_OF]->(child:type {node_name})` child, create the node
when absent, update timestamps and merge attributes when present. -/

/-- Node of the destination graph: identity, `node_name` property, type
label, parent linkage, plain attribute map, creation and modification
timestamps (`_created_timestamp` / `_modified_timestamp`).  The
`node_name` is a `JKey` because the Python passes the raw dict key as
the name parameter: topic segments are strings, but attribute-node
names derived from a list element's `"name"` value may be any hashable
scalar. -/
structure GraphNode where
  id : Nat
  node_name : JKey
  label : String
  parent : Option Nat
  attrs : JDict
  created : Int
  modified : Option Int

/-- Graph database state: the stored nodes and the next fresh element id. -/
structure GraphState where
  nodes : List GraphNode
  nextId : Nat

/-- Empty graph database. -/
def emptyGraph : GraphState := ⟨[], 0⟩

/-- Apply an update to the node with the given element id. -/
def updateNode (nodes : List GraphNode) (nid : Nat) (f : GraphNode → GraphNode) :
    List GraphNode :=
  nodes.map fun n => if n.id = nid then f n else n

/-- Embedding of `GraphDBHandler.save_node` (graphdb_handler.py lines
277-372).  The CQL first optionally matches the parent by element id: a
missing or null parent selects the global-merge branch, which merges on
(label, node_name) over the whole graph, setting `_created_timestamp` and
merging the attributes.  With a matched parent, an existing child matched
by `(parent)-[:PARENT_OF]->(child:label {node_name})` gets
`_modified_timestamp` and merged attributes; otherwise a new child node is
created under the parent.  Returns the updated state and the element id of
the created or merged node. -/
def save_node (st : GraphState) (nodename : JKey) (nodetype : String)
    (attributes : JDict) (parent_id : Option Nat) (timestamp : Int) :
    GraphState × Nat :=
  let parent : Option Nat :=
    match parent_id with
    | none => none
    | some pid => if st.nodes.any (fun n => n.id == pid) then some pid else none
  match parent with
  | none =>
      match st.nodes.find? (fun n => n.label == nodetype && n.node_name == nodename) with
      | some n =>
          let f : GraphNode → GraphNode := fun m =>
            { m with created := timestamp, attrs := dupdate m.attrs attributes }
          ({ st with nodes := updateNode st.nodes n.id f }, n.id)
      | none =>
          let created : GraphNode :=
            ⟨st.nextId, nodename, nodetype, none, dupdate [] attributes, timestamp, none⟩
          ({ nodes := st.nodes ++ [created], nextId := st.nextId + 1 }, st.nextId)
  | some pid =>
      match st.nodes.find? (fun n => n.parent == some pid && n.label == nodetype
          && n.node_name == nodename) with
      | some n =>
          let f : GraphNode → GraphNode := fun m =>
            { m with modified := some timestamp, attrs := dupdate m.attrs attributes }
          ({ st with nodes := updateNode st.nodes n.id f }, n.id)
      | none =>
          let created : GraphNode :=
            ⟨st.nextId, nodename, nodetype, some pid, dupdate [] attributes, timestamp, none⟩
          ({ nodes := st.nodes ++ [created], nextId := st.nextId + 1 }, st.nextId)

/-- Behavior of `separate_plain_composite_attributes` when
`save_attribute_nodes` (graphdb_handler.py line 245) passes it an arbitrary
runtime value: a dict splits normally and `None` yields two empty dicts
(source lines 399-401), but any other value raises — iterating a non-empty
list or string with `for key in attributes` and then calling
`attributes.get(key)` raises AttributeError, and an int/float/bool is not
iterable and raises TypeError.  An empty list or string iterates zero times
and returns two empty dicts. -/
def separate_attributes_of_value : JValue → Except String (JDict × KDict)
  | .obj fields => separate_plain_composite_attributes (some fields)
  | .null => .ok ([], [])
  | .arr items =>
      if items.isEmpty then .ok ([], [])
      else .error "AttributeError: list object has no attribute get"
  | .str s =>
      if s.isEmpty then .ok ([], [])
      else .error "AttributeError: str object has no attribute get"
  | .int _ => .error "TypeError: int object is not iterable"
  | .bool _ => .error "TypeError: bool object is not iterable"

/-- Embedding of `GraphDBHandler.save_attribute_nodes` (graphdb_handler.py
lines 230-259).  Each attribute is split and saved as a child node of
`lastnode_id` carrying the plain part.  When the composite part is
non-empty the source then runs `for child_key in composite_attributes.items()`,
which binds each (key, value) PAIR as `child_key`, and immediately evaluates
`composite_attributes[child_key]`: hashing the pair raises
`TypeError: unhashable type` on the first iteration whenever the first
composite value is a dict or list, and otherwise the hashable pair is not
equal to any string key, raising KeyError.  Either way the statement
raises, so the recursive call below it (and the set literal
`{child_key, child_value}` it would pass where a dict is expected) is
unreachable; the raise is modelled as `Except.error`. -/
def save_attribute_nodes (st : GraphState) (lastnode_id : Nat) (attr_nodes : KDict)
    (attr_node_type : String) (timestamp : Int) : Except String GraphState :=
  match attr_nodes with
  | [] => .ok st
  | (key, val) :: rest =>
      match separate_attributes_of_value val with
      | .error e => .error e
      | .ok (plain_attributes, composite_attributes) =>
          let r := save_node st key attr_node_type plain_attributes (some lastnode_id) timestamp
          match composite_attributes with
          | [] => save_attribute_nodes r.1 lastnode_id rest attr_node_type timestamp
          | (_, cv) :: _ =>
              match cv with
              | .obj _ => .error "TypeError: unhashable type: dict"
              | .arr _ => .error "TypeError: unhashable type: list"
              | _ => .error "KeyError"

/-- Loop body of `GraphDBHandler.save_all_nodes` (graphdb_handler.py lines
206-225) over the remaining topic segments: one node per segment, linked to
the previous one; only the leaf receives the plain attributes, and after
saving the leaf the composite attributes are persisted via
`save_attribute_nodes`.  A `none` from `get_topic_node_type` is the
IndexError the Python raises on an empty node-type tuple. -/
def saveAllGo (st : GraphState) (rem : List String) (depth : Nat)
    (lastnode_id : Option Nat) (dict_less_message : JDict) (child_dict_vals : KDict)
    (timestamp : Int) (node_types : List String) (attr_node_type : String) :
    Except String GraphState :=
  match rem with
  | [] => .ok st
  | node :: rest =>
      let node_attr : JDict := if rest.isEmpty then dict_less_message else []
      match get_topic_node_type depth node_types with
      | none => .error "IndexError: tuple index out of range"
      | some node_type =>
          let r := save_node st (.str node) node_type node_attr lastnode_id timestamp
          if rest.isEmpty then
            save_attribute_nodes r.1 r.2 child_dict_vals attr_node_type timestamp
          else
            saveAllGo r.1 rest (depth + 1) (some r.2) dict_less_message child_dict_vals
              timestamp node_types attr_node_type

/-- Splitting a character list at every `/`, accumulating the current
segment in reverse. -/
def splitSlashGo : List Char → List Char → List String
  | [], cur => [String.mk cur.reverse]
  | c :: rest, cur =>
      if c = '/' then String.mk cur.reverse :: splitSlashGo rest []
      else splitSlashGo rest (c :: cur)

/-- Python `topic.split("/")`: the topic's segments, with empty segments
preserved (so the empty topic yields the one-element list [""], as in
Python). -/
def topicSplit (topic : String) : List String :=
  splitSlashGo topic.data []

/-- Embedding of `GraphDBHandler.save_all_nodes` (graphdb_handler.py lines
183-225): split the topic on "/", split the message into plain and
composite attributes (propagating the split's TypeError, raised before any
node is written), then walk the segments. -/
def save_all_nodes (st : GraphState) (topic : String) (message : Option JDict)
    (timestamp : Int) (node_types : List String) (attr_node_type : String) :
    Except String GraphState :=
  match separate_plain_composite_attributes message with
  | .error e => .error e
  | .ok sp =>
      saveAllGo st (topicSplit topic) 0 none sp.1 sp.2 timestamp node_types attr_node_type

/-- The default node-type tuple of `persist_mqtt_msg`
(graphdb_handler.py line 137). -/
def defaultNodeTypes : List String := ["ENTERPRISE", "FACILITY", "AREA", "LINE", "DEVICE"]

/-- Arguments one invocation of `persist_mqtt_msg` runs with. -/
structure PersistArgs where
  topic : String
  message : Option JDict
  timestamp : Int
  node_types : List String
  attr_node_type : String
  retry : Nat

/-- Embedding of the retry control flow of `GraphDBHandler.persist_mqtt_msg`
(graphdb_handler.py lines 132-180), abstracting the database write:
`outcomes` lists, per attempt, whether the write transaction succeeds
(`true`) or raises a transient/transaction/session-expired error (`false`);
an exhausted list means no further injected failures.  Returns the
invocations in order, each recording the arguments it ran with, and whether
the call finally succeeded (`true`) or re-raised after exhausting retries
(`false`).  On a transient failure with `retry < max_retry` the source
calls itself passing topic, message, timestamp and attr_node_type but
omitting node_types (lines 178-180), so the retried invocation runs with
the declared default tuple. -/
def persist_mqtt_msg (max_retry : Nat) (outcomes : List Bool) (topic : String)
    (message : Option JDict) (timestamp : Int) (node_types : List String)
    (attr_node_type : String) (retry : Nat) : List PersistArgs × Bool :=
  let args : PersistArgs := ⟨topic, message, timestamp, node_types, attr_node_type, retry⟩
  match outcomes with
  | [] => ([args], true)
  | ok :: rest =>
      if ok then ([args], true)
      else if max_retry ≤ retry then ([args], false)
      else
        let r := persist_mqtt_msg max_retry rest topic message timestamp
          defaultNodeTypes attr_node_type (retry + 1)
        (args :: r.1, r.2)

/-- C3 (code bug): persisting a message whose composite attribute itself
contains a composite attribute does not materialize the inner composite as
a grandchild node — the walk raises instead (the source binds each
(key, value) pair of `composite_attributes.items()` as a key and indexes
the dict with it).  A depth-1 composite does become a child node of the
leaf: with message {"c": {"k1": "v1"}} on topic "a/b" the node "c" is
created with the leaf "b" (element id 1) as parent, while message
{"c": {"k1": {"k2": 100}}} makes the whole walk fail. -/
theorem nested_composite_attribute_crash :
    save_all_nodes emptyGraph "a/b"
        (some [("c", .obj [("k1", .obj [("k2", .int 100)])])]) 0
        ["ENTERPRISE", "FACILITY", "AREA", "LINE", "DEVICE"] "NESTED_ATTRIBUTE"
      = .error "TypeError: unhashable type: dict" ∧
    (∃ st, save_all_nodes emptyGraph "a/b"
        (some [("c", .obj [("k1", .str "v1")])]) 0
        ["ENTERPRISE", "FACILITY", "AREA", "LINE", "DEVICE"] "NESTED_ATTRIBUTE"
      = .ok st ∧
      st.nodes.any (fun n => n.node_name == JKey.str "c" && n.label == "NESTED_ATTRIBUTE"
        && n.parent == some 1) = true) :=
  ⟨rfl, ⟨_, rfl, rfl⟩⟩

/-- Helper for C10: every invocation in the retry trace carries the original
topic, message, timestamp and attr_node_type unchanged. -/
theorem persist_trace_passthrough (max_retry : Nat) (outcomes : List Bool)
    (topic : String) (message : Option JDict) (timestamp : Int)
    (node_types : List String) (attr_node_type : String) (retry : Nat) :
    ∀ a ∈ (persist_mqtt_msg max_retry outcomes topic message timestamp node_types
        attr_node_type retry).1,
      a.topic = topic ∧ a.message = message ∧ a.timestamp = timestamp ∧
        a.attr_node_type = attr_node_type := by
  induction outcomes generalizing node_types retry with
  | nil =>
      intro a ha
      simp only [persist_mqtt_msg, List.mem_singleton] at ha
      subst ha
      exact ⟨rfl, rfl, rfl, rfl⟩
  | cons ok rest ih =>
      intro a ha
      by_cases hok : ok = true
      · simp only [persist_mqtt_msg, hok, if_pos, List.mem_singleton] at ha
        subst ha
        exact ⟨rfl, rfl, rfl, rfl⟩
      · by_cases hr : max_retry ≤ retry
        · simp only [persist_mqtt_msg, hok, if_false, if_pos hr, Bool.false_eq_true,
            List.mem_singleton] at ha
          subst ha
          exact ⟨rfl, rfl, rfl, rfl⟩
        · simp only [persist_mqtt_msg, hok, if_false, if_neg hr, Bool.false_eq_true,
            List.mem_cons] at ha
          rcases ha with rfl | ha
          · exact ⟨rfl, rfl, rfl, rfl⟩
          · exact ih defaultNodeTypes (retry + 1) a ha

/-- Helper for C10: once the node-type argument is the default tuple, it
stays the default tuple through every further retry. -/
theorem persist_trace_default (max_retry : Nat) (outcomes : List Bool)
    (topic : String) (message : Option JDict) (timestamp : Int)
    (attr_node_type : String) (retry : Nat) :
    ∀ a ∈ (persist_mqtt_msg max_retry outcomes topic message timestamp
        defaultNodeTypes attr_node_type retry).1,
      a.node_types = defaultNodeTypes := by
  induction outcomes generalizing retry with
  | nil =>
      intro a ha
      simp only [persist_mqtt_msg, List.mem_singleton] at ha
      subst ha
      rfl
  | cons ok rest ih =>
      intro a ha
      by_cases hok : ok = true
      · simp only [persist_mqtt_msg, hok, if_pos, List.mem_singleton] at ha
        subst ha
        rfl
      · by_cases hr : max_retry ≤ retry
        · simp only [persist_mqtt_msg, hok, if_false, if_pos hr, Bool.false_eq_true,
            List.mem_singleton] at ha
          subst ha
          rfl
        · simp only [persist_mqtt_msg, hok, if_false, if_neg hr, Bool.false_eq_true,
            List.mem_cons] at ha
          rcases ha with rfl | ha
          · rfl
          · exact ih (retry + 1) a ha

/-- C10: the first invocation of persist_mqtt_msg runs with the
caller-supplied arguments, and every retried invocation (every later entry
of the trace) still carries the original topic, message, timestamp and
attr_node_type but runs with the default node-type tuple
("ENTERPRISE","FACILITY","AREA","LINE","DEVICE"), whatever tuple the
original call supplied. -/
theorem persist_retry_drops_node_types (max_retry : Nat) (outcomes : List Bool)
    (topic : String) (message : Option JDict) (timestamp : Int)
    (node_types : List String) (attr_node_type : String) :
    (persist_mqtt_msg max_retry outcomes topic message timestamp node_types
        attr_node_type 0).1.head?
      = some ⟨topic, message, timestamp, node_types, attr_node_type, 0⟩ ∧
    ∀ a ∈ (persist_mqtt_msg max_retry outcomes topic message timestamp node_types
        attr_node_type 0).1.tail,
      a.topic = topic ∧ a.message = message ∧ a.timestamp = timestamp ∧
        a.attr_node_type = attr_node_type ∧ a.node_types = defaultNodeTypes := by
  constructor
  · cases outcomes with
    | nil => rfl
    | cons ok rest =>
        by_cases hok : ok = true
        · simp [persist_mqtt_msg, hok]
        · by_cases hr : max_retry ≤ 0
          · simp [persist_mqtt_msg, hok, hr]
          · simp [persist_mqtt_msg, hok, hr]
  · intro a ha
    cases outcomes with
    | nil => simp [persist_mqtt_msg] at ha
    | cons ok rest =>
        by_cases hok : ok = true
        · simp [persist_mqtt_msg, hok] at ha
        · by_cases hr : max_retry ≤ 0
          · simp [persist_mqtt_msg, hok, hr] at ha
          · simp only [persist_mqtt_msg, hok, if_false, if_neg hr, Bool.false_eq_true,
              List.tail_cons] at ha
            have h1 := persist_trace_passthrough max_retry rest topic message timestamp
              defaultNodeTypes attr_node_type 1 a ha
            have h2 := persist_trace_default max_retry rest topic message timestamp
              attr_node_type 1 a ha
            exact ⟨h1.1, h1.2.1, h1.2.2.1, h1.2.2.2, h2⟩

/-! Embedding of the SparkplugB listener's per-message callback
(`UNSSparkPlugBMapper.on_message`, uns_sparkplugb_listner.py lines
102-139). -/

/-- Topic handling of the callback body (source lines 112-132): split the
topic on "/"; with at least 4 segments read group_id, message_type and
edge_node_id; with exactly 5 segments also read device_id and hand
(group_id, message_type, edge_node_id, device_id) to
`transform_spb_and_publish_to_uns`; with 4 segments or more than 5 the
`else` branch raises `ValueError` (source lines 122-126), and with fewer
than 4 segments the outer `else` raises `ValueError` (source lines
130-132).  The message payload is opaque here: it is only forwarded. -/
def spb_topic_route (topic : String) :
    Except String (String × String × String × Option String) :=
  let topic_path := topicSplit topic
  if 4 ≤ topic_path.length then
    if topic_path.length = 5 then
      .ok (topic_path.getD 1 "", topic_path.getD 2 "", topic_path.getD 3 "",
        some (topic_path.getD 4 ""))
    else
      .error ("Unknown SparkplugB topic received: " ++ topic ++
        ".Depth of tree should not be more than 5, got " ++ toString topic_path.length)
  else
    .error ("Unknown SparkplugB topic received: " ++ topic)

/-- The whole callback (source lines 102-139): the body runs inside
`try`; the `except` block logs the exception and then executes `raise ex`,
re-raising the same exception out of the callback. -/
def on_message (topic : String) :
    Except String (String × String × String × Option String) :=
  match spb_topic_route topic with
  | .ok v => .ok v
  | .error e => .error e

/-- C5 (code bug): a SparkplugB topic of exactly 4 segments (device
segment omitted) is rejected with a ValueError instead of being accepted
and transformed — the source raises whenever the segment count is not
exactly 5 — while a 5-segment topic is accepted and a 2-segment topic is
rejected as the claim expects. -/
theorem spb_topic_depth_four_rejected :
    spb_topic_route "spBv1.0/grp1/NBIRTH/eon1"
      = .error ("Unknown SparkplugB topic received: spBv1.0/grp1/NBIRTH/eon1" ++
          ".Depth of tree should not be more than 5, got 4") ∧
    spb_topic_route "spBv1.0/grp1/NBIRTH/eon1/dev1"
      = .ok ("grp1", "NBIRTH", "eon1", some "dev1") ∧
    spb_topic_route "spBv1.0/grp1"
      = .error "Unknown SparkplugB topic received: spBv1.0/grp1" :=
  ⟨rfl, rfl, rfl⟩

/-- C6 counterexample: the callback does not drop a message with a
malformed topic depth — the exception propagates out of `on_message` (the
`except` block ends in `raise ex`), here at the concrete 2-segment topic
"spBv1.0/group1". -/
theorem on_message_propagates_cex :
    on_message "spBv1.0/group1"
      = .error "Unknown SparkplugB topic received: spBv1.0/group1" := rfl

/-- C6 amended: for every message whose topic handling raises, the
callback logs and then re-raises the same exception out of the
per-message callback; the error is propagated to the MQTT client loop, not
swallowed. -/
theorem on_message_reraises (topic : String) (e : String)
    (h : spb_topic_route topic = .error e) : on_message topic = .error e := by
  simp [on_message, h]

/-- Witness for C6 amended at a concrete 6-segment topic. -/
theorem on_message_reraises_witness :
    spb_topic_route "spBv1.0/a/b/c/d/e"
      = .error ("Unknown SparkplugB topic received: spBv1.0/a/b/c/d/e" ++
          ".Depth of tree should not be more than 5, got 6") ∧
    on_message "spBv1.0/a/b/c/d/e"
      = .error ("Unknown SparkplugB topic received: spBv1.0/a/b/c/d/e" ++
          ".Depth of tree should not be more than 5, got 6") :=
  ⟨rfl, on_message_reraises "spBv1.0/a/b/c/d/e" _ rfl⟩

/-! Session sequence counters.  Modelled from the spec:
`uns_sparkplugb.uns_spb_helper.Spb_Message_Generator` is not among the
repository's files (only its tests under 02_mqtt-cluster/test are), so the
counters are modelled from §4.3 of the specification: two independent
counters over {0..255}, each starting at 0; the "next value" operation
returns the current value and then advances the counter to
(current + 1) mod 256. -/

/-- Modelled from the spec: the generator's state — its message sequence
counter and its birth-death sequence counter, both starting at 0. -/
structure Spb_Message_Generator where
  msg_seq_number : Nat
  birth_death_seq_num : Nat

/-- Modelled from the spec: a freshly constructed generator, both
counters 0. -/
def freshGenerator : Spb_Message_Generator := ⟨0, 0⟩

/-- Modelled from the spec: `getSeqNum` returns the current message
sequence number, then sets it to (current + 1) mod 256. -/
def getSeqNum (g : Spb_Message_Generator) : Nat × Spb_Message_Generator :=
  (g.msg_seq_number, { g with msg_seq_number := (g.msg_seq_number + 1) % 256 })

/-- Modelled from the spec: `getBdSeqNum` has identical semantics on the
independent birth-death counter. -/
def getBdSeqNum (g : Spb_Message_Generator) : Nat × Spb_Message_Generator :=
  (g.birth_death_seq_num,
    { g with birth_death_seq_num := (g.birth_death_seq_num + 1) % 256 })

/-- Generator state after n calls of `getSeqNum`. -/
def seqStepN (g : Spb_Message_Generator) : Nat → Spb_Message_Generator
  | 0 => g
  | n + 1 => (getSeqNum (seqStepN g n)).2

/-- Generator state after n calls of `getBdSeqNum`. -/
def bdStepN (g : Spb_Message_Generator) : Nat → Spb_Message_Generator
  | 0 => g
  | n + 1 => (getBdSeqNum (bdStepN g n)).2

/-- Value returned by call number n (counting from 0) of `getSeqNum`. -/
def seqAt (g : Spb_Message_Generator) (n : Nat) : Nat :=
  (getSeqNum (seqStepN g n)).1

/-- Value returned by call number n (counting from 0) of `getBdSeqNum`. -/
def bdAt (g : Spb_Message_Generator) (n : Nat) : Nat :=
  (getBdSeqNum (bdStepN g n)).1

/-- Helper for C4: after n calls the message sequence counter holds
n mod 256 (starting from a fresh generator). -/
theorem seqStepN_counter (n : Nat) :
    (seqStepN freshGenerator n).msg_seq_number = n % 256 := by
  induction n with
  | zero => rfl
  | succ n ih =>
      show ((seqStepN freshGenerator n).msg_seq_number + 1) % 256 = (n + 1) % 256
      rw [ih, Nat.mod_add_mod]

/-- Helper for C4: after n calls the birth-death counter holds n mod 256. -/
theorem bdStepN_counter (n : Nat) :
    (bdStepN freshGenerator n).birth_death_seq_num = n % 256 := by
  induction n with
  | zero => rfl
  | succ n ih =>
      show ((bdStepN freshGenerator n).birth_death_seq_num + 1) % 256 = (n + 1) % 256
      rw [ih, Nat.mod_add_mod]

/-- C4: on a fresh generator the first `getSeqNum` call returns 0, every
call returns the previous call's value plus 1 mod 256 (call n returns
n mod 256, so calls 0..255 return 0..255 and call 256 — the 257th —
returns 0, wrapping immediately after 255); `getBdSeqNum` has identical
semantics on an independent counter: `getSeqNum` calls never move the
birth-death counter and `getBdSeqNum` calls never move the message
sequence counter. -/
theorem sequence_counter_spec :
    seqAt freshGenerator 0 = 0 ∧
    (∀ n, seqAt freshGenerator n = n % 256) ∧
    (∀ n, seqAt freshGenerator (n + 1) = (seqAt freshGenerator n + 1) % 256) ∧
    seqAt freshGenerator 255 = 255 ∧
    seqAt freshGenerator 256 = 0 ∧
    bdAt freshGenerator 0 = 0 ∧
    (∀ n, bdAt freshGenerator n = n % 256) ∧
    (∀ n, bdAt freshGenerator (n + 1) = (bdAt freshGenerator n + 1) % 256) ∧
    (∀ g n, (seqStepN g n).birth_death_seq_num = g.birth_death_seq_num) ∧
    (∀ g n, (bdStepN g n).msg_seq_number = g.msg_seq_number) := by
  have hseq : ∀ n, seqAt freshGenerator n = n % 256 := fun n => seqStepN_counter n
  have hbd : ∀ n, bdAt freshGenerator n = n % 256 := fun n => bdStepN_counter n
  refine ⟨hseq 0, hseq, ?_, hseq 255, hseq 256, hbd 0, hbd, ?_, ?_, ?_⟩
  · intro n
    rw [hseq n, hseq (n + 1), Nat.mod_add_mod]
  · intro n
    rw [hbd n, hbd (n + 1), Nat.mod_add_mod]
  · intro g n
    induction n with
    | zero => rfl
    | succ n ih => exact ih
  · intro g n
    induction n with
    | zero => rfl
    | succ n ih => exact ih

/-! Signed integer wire transform.  Modelled from the spec:
`uns_sparkplugb.uns_spb_helper.setIntValueInMetric` /
`setLongValueInMetric` are not among the repository's files (only their
tests under 02_mqtt-cluster/test are), so the transform is modelled from
§4.1 of the specification: each signed 8/16/32/64-bit integer is stored on
the wire as its unsigned counterpart — encoding adds 2^bits when the
logical value is negative, decoding subtracts 2^bits when the wire value
exceeds the signed range. -/

/-- Modelled from the spec: the encode direction — store a negative value
as value + 2^factor, a non-negative value unchanged (`factor` is the bit
width, as in the tests' `setIntValueInMetric(value, metric, factor)`). -/
def setIntValueInMetric (value : Int) (factor : Nat) : Int :=
  if value < 0 then value + 2 ^ factor else value

/-- Modelled from the spec: the decode direction — subtract 2^factor when
the wire value exceeds the signed range, i.e. is at least 2^(factor-1). -/
def decodeIntValue (factor : Nat) (wire : Int) : Int :=
  if 2 ^ (factor - 1) ≤ wire then wire - 2 ^ factor else wire

/-- C8: for every signed integer representable in 8, 16, 32 or 64 bits
the wire transform is exact and invertible: encoding adds 2^bits exactly
when the value is negative, and decode(encode(v)) = v over the full
representable range; in particular -10 encodes to 246 at width 8, to
65526 at width 16 and to 2^64 - 10 at width 64. -/
theorem signed_wire_roundtrip (bits : Nat) (v : Int)
    (hb : bits = 8 ∨ bits = 16 ∨ bits = 32 ∨ bits = 64)
    (hlo : -(2 ^ (bits - 1)) ≤ v) (hhi : v < 2 ^ (bits - 1)) :
    (v < 0 → setIntValueInMetric v bits = v + 2 ^ bits) ∧
    (0 ≤ v → setIntValueInMetric v bits = v) ∧
    decodeIntValue bits (setIntValueInMetric v bits) = v ∧
    setIntValueInMetric (-10) 8 = 246 ∧
    setIntValueInMetric (-10) 16 = 65526 ∧
    setIntValueInMetric (-10) 64 = 2 ^ 64 - 10 := by
  have hb1 : 1 ≤ bits := by rcases hb with rfl | rfl | rfl | rfl <;> norm_num
  have hpow : (2 : Int) ^ bits = 2 ^ (bits - 1) * 2 := by
    conv_lhs => rw [show bits = (bits - 1) + 1 by omega]
    rw [pow_succ]
  refine ⟨?_, ?_, ?_, by norm_num [setIntValueInMetric], by norm_num [setIntValueInMetric],
    by norm_num [setIntValueInMetric]⟩
  · intro hneg
    simp only [setIntValueInMetric]
    rw [if_pos hneg]
  · intro hpos
    simp only [setIntValueInMetric]
    rw [if_neg (not_lt.mpr hpos)]
  · by_cases hneg : v < 0
    · have henc : setIntValueInMetric v bits = v + 2 ^ bits := by
        simp only [setIntValueInMetric]
        rw [if_pos hneg]
      have hge : (2 : Int) ^ (bits - 1) ≤ v + 2 ^ bits := by
        rw [hpow]
        linarith
      rw [henc]
      simp only [decodeIntValue]
      rw [if_pos hge]
      ring
    · push_neg at hneg
      have henc : setIntValueInMetric v bits = v := by
        simp only [setIntValueInMetric]
        rw [if_neg (not_lt.mpr hneg)]
      rw [henc]
      simp only [decodeIntValue]
      rw [if_neg (not_le.mpr hhi)]

/-- Witness for C8 at width 8 and value -10. -/
theorem signed_wire_roundtrip_witness :
    ((8 : Nat) = 8 ∨ (8 : Nat) = 16 ∨ (8 : Nat) = 32 ∨ (8 : Nat) = 64) ∧
    -(2 ^ ((8 : Nat) - 1) : Int) ≤ -10 ∧ ((-10 : Int) < 2 ^ ((8 : Nat) - 1)) ∧
    decodeIntValue 8 (setIntValueInMetric (-10) 8) = -10 :=
  ⟨Or.inl rfl, by norm_num, by norm_num,
    (signed_wire_roundtrip 8 (-10) (Or.inl rfl) (by norm_num) (by norm_num)).2.2.1⟩

end UNS
